import Mathlib

/-!
Verification of the TopicRelay broker (`src/server/server.cpp`).

The broker's registries and command handlers are embedded shallowly:

* a live socket (`std::shared_ptr<tcp::socket>`, compared by raw pointer)
  is a `Conn := Nat`;
* `connected_clients : unordered_map<socket, ClientInfo>` is an
  association list `ConnReg`;
* `topic_subscribers : unordered_map<string, vector<socket>>` is an
  association list `TopicReg`;
* each command handler becomes a pure function from registry state (plus
  the textual argument) to the new state and the list of
  `send_message` calls it performs, as `(connection, text)` pairs
  (`send_message` appends the trailing newline on the wire; the modelled
  text is the line content passed to it);
* a send that throws inside the PUBLISH fan-out is modelled by an
  environment predicate `failSend : Conn → Bool`.
-/

/-- Character class of `" \t"`, the set trimmed by `find_first_not_of(" \t")`
and `find_last_not_of(" \t")` in `sanitize_topic` / `sanitize_message`. -/
def isSpaceTab (c : Char) : Bool := c == ' ' || c == '\t'

/-- `::isalnum` in the C locale (server.cpp line 444): ASCII letters and digits. -/
def isAlnumAscii (c : Char) : Bool := c.isAlpha || c.isDigit

/-- The byte test of `sanitize_message` (server.cpp line 478): the loop rejects
`c < 0x20 || c > 0x7E`, i.e. accepts exactly printable ASCII. -/
def isPrintableAscii (c : Char) : Bool := 0x20 ≤ c.toNat && c.toNat ≤ 0x7E

/-- `std::string::find_first_not_of` over a character class: index of the first
character not satisfying `p`, or `none` for `npos`. -/
def findFirstNotOf : List Char → (Char → Bool) → Option Nat
  | [], _ => none
  | c :: cs, p => if p c then (findFirstNotOf cs p).map (fun i => i + 1) else some 0

/-- `std::string::find_last_not_of` over a character class: index of the last
character not satisfying `p`, or `none` for `npos`. -/
def findLastNotOf : List Char → (Char → Bool) → Option Nat
  | [], _ => none
  | c :: cs, p =>
    match findLastNotOf cs p with
    | some i => some (i + 1)
    | none => if p c then none else some 0

/-- `std::string::substr(pos, len)`. -/
def substrTake (l : List Char) (pos len : Nat) : List Char := (l.drop pos).take len

/-- Splitting an argument string at its first space, as the dispatcher
(server.cpp lines 156-158) and `handle_publish` (line 362) do with
`find(' ')` / `substr`; `none` for `npos`. -/
def splitFirstSpace (l : List Char) : Option (List Char × List Char) :=
  match l.findIdx? (fun c => c == ' ') with
  | none => none
  | some i => some (l.take i, l.drop (i + 1))

/-- Removing the trailing characters satisfying `p` from a list.  This is the
specification-side reading of "trims trailing whitespace/tabs". -/
def dropTrailing (p : Char → Bool) : List Char → List Char
  | [] => []
  | c :: cs =>
    match dropTrailing p cs with
    | [] => if p c then [] else [c]
    | r => c :: r

/-- Specification-side trim: drop leading, then trailing, spaces and tabs. -/
def trimWs (l : List Char) : List Char := dropTrailing isSpaceTab (l.dropWhile isSpaceTab)

/-- The trim computed by `sanitize_topic` / `sanitize_message`
(server.cpp lines 429-437 and 461-467): `find_first_not_of(" \t")`,
`find_last_not_of(" \t")`, empty result on `npos`, otherwise
`substr(first, last - first + 1)`. -/
def trimCxx (l : List Char) : List Char :=
  match findFirstNotOf l isSpaceTab, findLastNotOf l isSpaceTab with
  | some first, some last => substrTake l first (last - first + 1)
  | _, _ => []

/-- Common shape of `sanitize_topic` and `sanitize_message` (server.cpp lines
426-450 and 458-485): trim spaces/tabs, return `""` when the trim is empty
(`npos`), when the trimmed length exceeds `maxLen`, or when some character
fails `charOk`; otherwise return the trimmed string. -/
def sanitizeField (maxLen : Nat) (charOk : Char → Bool) (s : String) : String :=
  let l := s.toList
  match findFirstNotOf l isSpaceTab, findLastNotOf l isSpaceTab with
  | some first, some last =>
    let cl := substrTake l first (last - first + 1)
    if maxLen < cl.length then ""
    else if cl.all charOk then String.mk cl
    else ""
  | _, _ => ""

/-- `sanitize_topic` (server.cpp lines 426-450): `MAX_TOPIC_LENGTH = 64`,
alphanumeric characters only. -/
def sanitize_topic (s : String) : String := sanitizeField 64 isAlnumAscii s

/-- `sanitize_message` (server.cpp lines 458-485): `MAX_MESSAGE_LENGTH = 1024`,
printable-ASCII bytes only. -/
def sanitize_message (s : String) : String := sanitizeField 1024 isPrintableAscii s

/-! ### Trim lemmas: the index-based C++ trim equals the structural trim -/

theorem findFirstNotOf_eq_none_iff (p : Char → Bool) :
    ∀ l : List Char, findFirstNotOf l p = none ↔ l.all p = true := by
  intro l
  induction l with
  | nil => simp [findFirstNotOf]
  | cons c cs ih =>
    by_cases hc : p c = true
    · simp [findFirstNotOf, hc, Option.map_eq_none', ih]
    · simp [findFirstNotOf, hc]

theorem findLastNotOf_eq_none_iff (p : Char → Bool) :
    ∀ l : List Char, findLastNotOf l p = none ↔ l.all p = true := by
  intro l
  induction l with
  | nil => simp [findLastNotOf]
  | cons c cs ih =>
    cases h : findLastNotOf cs p with
    | some i =>
      have hcs : ¬ cs.all p = true := by
        intro hall
        rw [ih.mpr hall] at h
        exact Option.noConfusion h
      simp [findLastNotOf, h, hcs]
    | none =>
      have hcs : cs.all p = true := (ih).mp h
      by_cases hc : p c = true
      · simp [findLastNotOf, h, hc, hcs]
      · simp [findLastNotOf, h, hc, hcs]

theorem dropTrailing_cons_of_ne_nil (p : Char → Bool) (c : Char) (cs : List Char)
    (h : dropTrailing p cs ≠ []) : dropTrailing p (c :: cs) = c :: dropTrailing p cs := by
  cases hdt : dropTrailing p cs with
  | nil => exact absurd hdt h
  | cons d ds => simp only [dropTrailing, hdt]

theorem dropTrailing_eq_nil_of_all (p : Char → Bool) :
    ∀ l : List Char, l.all p = true → dropTrailing p l = [] := by
  intro l
  induction l with
  | nil => intro _; rfl
  | cons c cs ih =>
    intro h
    rw [List.all_cons, Bool.and_eq_true] at h
    simp [dropTrailing, ih h.2, h.1]

theorem take_findLastNotOf (p : Char → Bool) :
    ∀ (l : List Char) (t : Nat), findLastNotOf l p = some t →
      l.take (t + 1) = dropTrailing p l := by
  intro l
  induction l with
  | nil => intro t h; exact Option.noConfusion h
  | cons c cs ih =>
    intro t h
    cases hcs : findLastNotOf cs p with
    | some i =>
      rw [findLastNotOf, hcs] at h
      have ht : t = i + 1 := (Option.some.inj h).symm
      subst ht
      have hih := ih i hcs
      cases cs with
      | nil => exact Option.noConfusion hcs
      | cons c2 cs2 =>
        have hne : dropTrailing p (c2 :: cs2) ≠ [] := by
          rw [← hih]
          simp [List.take]
        show (c :: c2 :: cs2).take (i + 1 + 1) = dropTrailing p (c :: c2 :: cs2)
        rw [List.take_succ_cons, hih, dropTrailing_cons_of_ne_nil p c _ hne]
    | none =>
      rw [findLastNotOf, hcs] at h
      have hall : cs.all p = true := (findLastNotOf_eq_none_iff p cs).mp hcs
      by_cases hc : p c = true
      · rw [if_pos hc] at h; exact Option.noConfusion h
      · rw [if_neg hc] at h
        have ht : t = 0 := (Option.some.inj h).symm
        subst ht
        rw [dropTrailing, dropTrailing_eq_nil_of_all p cs hall]
        simp [hc, List.take]

theorem trimCxx_eq_trimWs : ∀ l : List Char, trimCxx l = trimWs l := by
  intro l
  induction l with
  | nil => rfl
  | cons c cs ih =>
    by_cases hc : isSpaceTab c = true
    · cases hf : findFirstNotOf cs isSpaceTab with
      | none =>
        have hall : cs.all isSpaceTab = true := (findFirstNotOf_eq_none_iff _ cs).mp hf
        have hl : findLastNotOf (c :: cs) isSpaceTab = none := by
          rw [findLastNotOf, (findLastNotOf_eq_none_iff _ cs).mpr hall, if_pos hc]
        have hf2 : findFirstNotOf (c :: cs) isSpaceTab = none := by
          rw [findFirstNotOf, if_pos hc, hf]; rfl
        rw [trimCxx, hf2, hl]
        rw [trimWs, List.dropWhile_cons_of_pos hc,
          List.dropWhile_eq_nil_iff.mpr (by simpa using List.all_eq_true.mp hall),
          dropTrailing]
      | some f =>
        cases hlast : findLastNotOf cs isSpaceTab with
        | none =>
          have hall : cs.all isSpaceTab = true := (findLastNotOf_eq_none_iff _ cs).mp hlast
          rw [(findFirstNotOf_eq_none_iff _ cs).mpr hall] at hf
          exact Option.noConfusion hf
        | some t =>
          have hf2 : findFirstNotOf (c :: cs) isSpaceTab = some (f + 1) := by
            rw [findFirstNotOf, if_pos hc, hf]; rfl
          have hl2 : findLastNotOf (c :: cs) isSpaceTab = some (t + 1) := by
            rw [findLastNotOf, hlast]
          simp only [trimCxx, hf2, hl2]
          have harith : t + 1 - (f + 1) + 1 = t - f + 1 := by omega
          have hsub : substrTake (c :: cs) (f + 1) (t + 1 - (f + 1) + 1)
              = substrTake cs f (t - f + 1) := by
            rw [harith]; rfl
          rw [hsub]
          have hcxx : substrTake cs f (t - f + 1) = trimCxx cs := by
            simp only [trimCxx, hf, hlast]
          rw [hcxx, ih, trimWs, trimWs, List.dropWhile_cons_of_pos hc]
    · have hf2 : findFirstNotOf (c :: cs) isSpaceTab = some 0 := by
        rw [findFirstNotOf, if_neg hc]
      cases hl : findLastNotOf (c :: cs) isSpaceTab with
      | none =>
        have hall := (findLastNotOf_eq_none_iff _ (c :: cs)).mp hl
        rw [List.all_cons, Bool.and_eq_true] at hall
        exact absurd hall.1 hc
      | some t =>
        simp only [trimCxx, hf2, hl]
        have hsub : substrTake (c :: cs) 0 (t - 0 + 1) = (c :: cs).take (t + 1) := by
          simp [substrTake]
        rw [hsub, take_findLastNotOf isSpaceTab (c :: cs) t hl, trimWs,
          List.dropWhile_cons_of_neg hc]

/-! ### Characterization of the shared sanitization routine -/

theorem trimWs_ne_nil_of_head_false (c : Char) (cs : List Char)
    (hc : isSpaceTab c = false) : dropTrailing isSpaceTab (c :: cs) ≠ [] := by
  cases hdt : dropTrailing isSpaceTab cs with
  | nil => simp [dropTrailing, hdt, hc]
  | cons d ds => simp [dropTrailing, hdt]

theorem dropWhile_head_false (p : Char → Bool) :
    ∀ (l : List Char) (c : Char) (rest : List Char),
      l.dropWhile p = c :: rest → p c = false := by
  intro l
  induction l with
  | nil => intro c rest h; exact List.noConfusion h
  | cons a l2 ih =>
    intro c rest h
    by_cases ha : p a = true
    · rw [List.dropWhile_cons_of_pos ha] at h
      exact ih c rest h
    · rw [List.dropWhile_cons_of_neg ha] at h
      cases h
      exact Bool.eq_false_iff.mpr ha

theorem trimWs_eq_nil_iff (l : List Char) :
    trimWs l = [] ↔ l.all isSpaceTab = true := by
  constructor
  · intro h
    by_contra hall
    have hdw : l.dropWhile isSpaceTab ≠ [] := by
      intro hnil
      exact hall (List.all_eq_true.mpr (by simpa using List.dropWhile_eq_nil_iff.mp hnil))
    cases hc : l.dropWhile isSpaceTab with
    | nil => exact hdw hc
    | cons c rest =>
      have hfalse : isSpaceTab c = false := dropWhile_head_false isSpaceTab l c rest hc
      rw [trimWs, hc] at h
      exact trimWs_ne_nil_of_head_false c rest hfalse h
  · intro h
    rw [trimWs, List.dropWhile_eq_nil_iff.mpr (by simpa using List.all_eq_true.mp h)]
    rfl

theorem sanitizeField_eq (maxLen : Nat) (charOk : Char → Bool) (s : String) :
    sanitizeField maxLen charOk s =
      (if trimWs s.toList = [] then ""
       else if maxLen < (trimWs s.toList).length then ""
       else if (trimWs s.toList).all charOk then String.mk (trimWs s.toList)
       else "") := by
  cases hf : findFirstNotOf s.toList isSpaceTab with
  | none =>
    have hall := (findFirstNotOf_eq_none_iff isSpaceTab s.toList).mp hf
    have htw : trimWs s.toList = [] := (trimWs_eq_nil_iff s.toList).mpr hall
    rw [if_pos htw]
    simp only [sanitizeField, hf]
  | some first =>
    cases hl : findLastNotOf s.toList isSpaceTab with
    | none =>
      have hall := (findLastNotOf_eq_none_iff isSpaceTab s.toList).mp hl
      rw [(findFirstNotOf_eq_none_iff isSpaceTab s.toList).mpr hall] at hf
      exact Option.noConfusion hf
    | some last =>
      have hcl : substrTake s.toList first (last - first + 1) = trimWs s.toList := by
        have hx : trimCxx s.toList = substrTake s.toList first (last - first + 1) := by
          simp only [trimCxx, hf, hl]
        rw [← hx, trimCxx_eq_trimWs]
      have hne : trimWs s.toList ≠ [] := by
        intro hnil
        have hall := (trimWs_eq_nil_iff s.toList).mp hnil
        rw [(findFirstNotOf_eq_none_iff isSpaceTab s.toList).mpr hall] at hf
        exact Option.noConfusion hf
      rw [if_neg hne]
      simp only [sanitizeField, hf, hl, hcl]

theorem sanitizeField_eq_empty_iff (maxLen : Nat) (charOk : Char → Bool) (s : String) :
    sanitizeField maxLen charOk s = "" ↔
      (trimWs s.toList = [] ∨ maxLen < (trimWs s.toList).length ∨
        ∃ c ∈ trimWs s.toList, charOk c = false) := by
  rw [sanitizeField_eq]
  by_cases h1 : trimWs s.toList = []
  · rw [if_pos h1]
    exact ⟨fun _ => Or.inl h1, fun _ => rfl⟩
  · rw [if_neg h1]
    by_cases h2 : maxLen < (trimWs s.toList).length
    · rw [if_pos h2]
      exact ⟨fun _ => Or.inr (Or.inl h2), fun _ => rfl⟩
    · rw [if_neg h2]
      by_cases h3 : (trimWs s.toList).all charOk = true
      · rw [if_pos h3]
        have hmk : String.mk (trimWs s.toList) ≠ "" := by
          intro hmk0
          exact h1 (congrArg String.data hmk0)
        constructor
        · intro h; exact absurd h hmk
        · rintro (h | h | ⟨c, hc, hcf⟩)
          · exact absurd h h1
          · exact absurd h h2
          · have hct := List.all_eq_true.mp h3 c hc
            rw [hcf] at hct
            exact Bool.noConfusion hct
      · rw [if_neg h3]
        constructor
        · intro _
          have hex : ¬ ∀ c ∈ trimWs s.toList, charOk c = true := by
            intro hco
            exact h3 (List.all_eq_true.mpr hco)
          push_neg at hex
          rcases hex with ⟨c, hc, hcf⟩
          exact Or.inr (Or.inr ⟨c, hc, Bool.eq_false_iff.mpr hcf⟩)
        · intro _; rfl

theorem sanitizeField_eq_trim_of_ne_empty (maxLen : Nat) (charOk : Char → Bool) (s : String)
    (h : sanitizeField maxLen charOk s ≠ "") :
    sanitizeField maxLen charOk s = String.mk (trimWs s.toList) := by
  rw [sanitizeField_eq] at h ⊢
  by_cases h1 : trimWs s.toList = []
  · rw [if_pos h1] at h; exact absurd rfl h
  · rw [if_neg h1] at h ⊢
    by_cases h2 : maxLen < (trimWs s.toList).length
    · rw [if_pos h2] at h; exact absurd rfl h
    · rw [if_neg h2] at h ⊢
      by_cases h3 : (trimWs s.toList).all charOk = true
      · rw [if_pos h3]
      · rw [if_neg h3] at h; exact absurd rfl h

/-! ### Registries and command handlers (server.cpp lines 31-39, 196-418) -/

/-- A live connection: stands for a `std::shared_ptr<tcp::socket>`, identified
(as the server does with `get()` raw-pointer comparison) by a unique id. -/
abbrev Conn := Nat

/-- `ClientInfo` (server.cpp lines 15-20) without the redundant socket field. -/
structure ClientInfo where
  name : String
  pid : Int
deriving DecidableEq

/-- `connected_clients` (server.cpp line 32): connection-keyed map. -/
abbrev ConnReg := List (Conn × ClientInfo)

/-- `topic_subscribers` (server.cpp line 33): topic name to subscriber vector. -/
abbrev TopicReg := List (String × List Conn)

/-- `connected_clients.find(socket)`, yielding the stored `ClientInfo`. -/
def lookupConn (reg : ConnReg) (c : Conn) : Option ClientInfo :=
  (reg.find? (fun p => p.1 == c)).map (fun p => p.2)

/-- `connected_clients[socket] = info` (server.cpp line 225): overwrite the
entry for `c` when present, otherwise insert a new one. -/
def mapSetConn (reg : ConnReg) (c : Conn) (info : ClientInfo) : ConnReg :=
  if reg.any (fun p => p.1 == c) then
    reg.map (fun p => if p.1 == c then (c, info) else p)
  else reg ++ [(c, info)]

/-- `connected_clients.erase(it)` (server.cpp line 259): remove the entry
`find` located, i.e. the first entry keyed by `c`. -/
def eraseConn (reg : ConnReg) (c : Conn) : ConnReg :=
  reg.eraseP (fun p => p.1 == c)

/-- `topic_subscribers.find(topic)` (server.cpp lines 324, 384). -/
def findTopic (reg : TopicReg) (t : String) : Option (List Conn) :=
  (reg.find? (fun p => p.1 == t)).map (fun p => p.2)

/-- Writing back a topic's subscriber vector (the in-place mutation performed
through `topic_subscribers[topic]` / the iterator): replace the entry when the
topic is present, otherwise append it (`operator[]` default-insertion). -/
def setTopic (reg : TopicReg) (t : String) (subs : List Conn) : TopicReg :=
  if reg.any (fun p => p.1 == t) then
    reg.map (fun p => if p.1 == t then (t, subs) else p)
  else reg ++ [(t, subs)]

/-- Reply text of server.cpp lines 276, 318, 372. -/
def invalidTopicReply : String :=
  "[SERVER_ERROR] Invalid topic. Only letters (A-Z, a-z), numbers (0-9), and max length of 64 are allowed."

/-- Reply text of server.cpp line 379. -/
def invalidMessageReply : String :=
  "[SERVER_ERROR] Invalid message. Only Base64 characters (A-Z, a-z, 0-9, +, /, =) and max length of 1024 are allowed."

/-- Reply text of server.cpp line 365. -/
def invalidPublishReply : String :=
  "[SERVER_ERROR] Invalid publish format! Topic or message missing."

/-- `handle_connect` (server.cpp lines 196-231) after its `istringstream`
parse of `<serverPort> <clientName> <PID>` succeeded: scan all current
entries (including the issuing connection's own entry, if any) for a session
with the same name; on a hit rename once to `name-pid`; store via
`connected_clients[socket] = {socket, client_name, client_pid}` and reply.
Returns the new registry and the `send_message` calls made. -/
def handle_connect (reg : ConnReg) (c : Conn) (clientPort : Int) (clientName : String)
    (clientPid : Int) : ConnReg × List (Conn × String) :=
  let finalName :=
    if reg.any (fun p => p.2.name == clientName) then
      clientName ++ "-" ++ toString clientPid
    else clientName
  (mapSetConn reg c { name := finalName, pid := clientPid },
    [(c, "[SERVER] Connected as " ++ finalName)])

/-- `handle_disconnect` (server.cpp lines 239-262): if the connection is
registered, remove it from every topic's subscriber vector
(`erase(remove(...))` per topic), erase its registry entry, and reply
`[SERVER] Disconnected`; otherwise do nothing. -/
def handle_disconnect (creg : ConnReg) (treg : TopicReg) (c : Conn) :
    ConnReg × TopicReg × List (Conn × String) :=
  match lookupConn creg c with
  | none => (creg, treg, [])
  | some _ =>
    let treg2 := treg.map (fun p => (p.1, p.2.filter (fun s => !(s == c))))
    (eraseConn creg c, treg2, [(c, "[SERVER] Disconnected")])

/-- The `client_handler` EOF branch (server.cpp lines 140-145): on
`boost::asio::error::eof` the handler fetches metadata, logs, and `break`s out
of the read loop.  Neither registry is touched. -/
def client_handler_eof (creg : ConnReg) (treg : TopicReg) (c : Conn) : ConnReg × TopicReg :=
  (creg, treg)

/-- `handle_subscribe` (server.cpp lines 271-304): sanitize the topic
(empty result means invalid), default-create the topic entry through
`topic_subscribers[topic]`, search the vector with `find_if` comparing raw
pointers, reply `Already subscribed` without changes when found, otherwise
`push_back` and reply `Subscribed`. -/
def handle_subscribe (st : TopicReg) (c : Conn) (rawTopic : String) :
    TopicReg × List (Conn × String) :=
  let topic := sanitize_topic rawTopic
  if topic = "" then (st, [(c, invalidTopicReply)])
  else
    let subs := (findTopic st topic).getD []
    if subs.any (fun s => s == c) then
      (st, [(c, "[SERVER] Already subscribed to " ++ topic)])
    else
      (setTopic st topic (subs ++ [c]), [(c, "[SERVER] Subscribed to " ++ topic)])

/-- `handle_unsubscribe` (server.cpp lines 313-351): sanitize the topic;
`find` the topic (no default-creation); reply `not subscribed` when the topic
is absent, its vector is empty, or `remove_if` matches nothing; otherwise
`erase(remove_if(...))` the connection and reply `Unsubscribed`. -/
def handle_unsubscribe (st : TopicReg) (c : Conn) (rawTopic : String) :
    TopicReg × List (Conn × String) :=
  let topic := sanitize_topic rawTopic
  if topic = "" then (st, [(c, invalidTopicReply)])
  else
    match findTopic st topic with
    | none => (st, [(c, "[SERVER_ERROR] You are not subscribed to " ++ topic)])
    | some subs =>
      if subs.isEmpty then (st, [(c, "[SERVER_ERROR] You are not subscribed to " ++ topic)])
      else if subs.all (fun s => !(s == c)) then
        (st, [(c, "[SERVER_ERROR] You are not subscribed to " ++ topic)])
      else
        (setTopic st topic (subs.filter (fun s => !(s == c))),
          [(c, "[SERVER] Unsubscribed from " ++ topic)])

/-- Result of a PUBLISH: final topic registry, the `send_message` calls that
completed, and whether the fan-out loop read a vector slot at or past the
shrunken vector's end (which in the C++ is a read of a destroyed element
through an invalidated cached `end()` iterator - undefined behavior). -/
structure PublishOut where
  reg : TopicReg
  sent : List (Conn × String)
  ubRead : Bool
deriving DecidableEq

/-- The fan-out loop of `handle_publish` (server.cpp lines 395-406), modelled
at the level the C++ executes: the range-for caches `end()` once, so the loop
visits `subs.length` slot positions `i = 0, 1, ...` of the in-place vector.
A successful `send_message` records a delivery; a throwing send is caught and
answered with `erase(remove(...))` of that subscriber, shifting later elements
left, so the element after the failed one is skipped and the final position(s)
read destroyed slots (`ubRead`, undefined behavior in the source; modelled as
a read that delivers nothing). -/
def fanoutGo (failSend : Conn → Bool) (msg : String) :
    Nat → Nat → List Conn → List Conn × List (Conn × String) × Bool
  | 0, _, cur => (cur, [], false)
  | k + 1, i, cur =>
    match cur.get? i with
    | none =>
      let r := fanoutGo failSend msg k (i + 1) cur
      (r.1, r.2.1, true)
    | some sub =>
      if failSend sub then
        fanoutGo failSend msg k (i + 1) (cur.filter (fun s => !(s == sub)))
      else
        let r := fanoutGo failSend msg k (i + 1) cur
        (r.1, (sub, msg) :: r.2.1, r.2.2)

/-- Fan-out over a subscriber vector: iterate `subs.length` cached positions. -/
def fanout (failSend : Conn → Bool) (msg : String) (subs : List Conn) :
    List Conn × List (Conn × String) × Bool :=
  fanoutGo failSend msg subs.length 0 subs

/-- `handle_publish` (server.cpp lines 360-407) after the topic/payload split:
sanitize both parts (empty results rejected with the corresponding reply);
look the topic up; reply `No subscribers` when the topic is absent or its
vector empty; otherwise fan the formatted line out. -/
def publish_core (st : TopicReg) (c : Conn) (rawTopic rawPayload : String)
    (failSend : Conn → Bool) : PublishOut :=
  let topic := sanitize_topic rawTopic
  if topic = "" then ⟨st, [(c, invalidTopicReply)], false⟩
  else
    let payload := sanitize_message rawPayload
    if payload = "" then ⟨st, [(c, invalidMessageReply)], false⟩
    else
      match findTopic st topic with
      | none => ⟨st, [(c, "[SERVER_ERROR] No subscribers for topic: " ++ topic)], false⟩
      | some subs =>
        if subs.isEmpty then
          ⟨st, [(c, "[SERVER_ERROR] No subscribers for topic: " ++ topic)], false⟩
        else
          let r := fanout failSend ("[Message] Topic: " ++ topic ++ " Data: " ++ payload) subs
          ⟨setTopic st topic r.1, r.2.1, r.2.2⟩

/-- `handle_publish` (server.cpp lines 360-407): split the argument at its
first space (`[SERVER_ERROR] Invalid publish format! ...` when there is
none), then proceed as `publish_core`. -/
def handle_publish (st : TopicReg) (c : Conn) (args : String) (failSend : Conn → Bool) :
    PublishOut :=
  match splitFirstSpace args.toList with
  | none => ⟨st, [(c, invalidPublishReply)], false⟩
  | some pr => publish_core st c (String.mk pr.1) (String.mk pr.2) failSend

/-- One iteration of the `client_handler` read loop on a chunk returned by
`read_some` (server.cpp lines 151-158): erase every `'\n'` from the chunk,
then split the result at its first space into the dispatched
`(command, args)` pair (the whole chunk is one command when no space). -/
def client_handler_chunk (chunk : String) : String × String :=
  let message := String.mk (chunk.toList.filter (fun c => !(c == '\n')))
  match splitFirstSpace message.toList with
  | none => (message, "")
  | some pr => (String.mk pr.1, String.mk pr.2)

/-! ### Lock-usage traces (server.cpp lines 39, 196-262, 271-407, 129-175)

The two global mutexes (`client_mutex`, `topic_mutex`, server.cpp line 39)
and every access to the global maps are recorded, in statement order, as an
event trace per handler; a checker replays the trace and confirms that each
registry access happens while the corresponding lock is held. -/

/-- The two registries and their locks. -/
inductive Lk
  | client
  | topic
deriving DecidableEq

/-- One event of a handler body: acquiring / releasing one of the two
mutexes, or touching the registry that the named mutex guards. -/
inductive LockEv
  | acq (l : Lk)
  | rel (l : Lk)
  | access (l : Lk)
deriving DecidableEq

/-- Replay a trace, keeping the multiset of held locks, and check that every
`access l` happens while `l` is held. -/
def accessesLockedFrom : List Lk → List LockEv → Bool
  | _, [] => true
  | held, LockEv.acq l :: rest => accessesLockedFrom (l :: held) rest
  | held, LockEv.rel l :: rest => accessesLockedFrom (held.erase l) rest
  | held, LockEv.access l :: rest => held.contains l && accessesLockedFrom held rest

/-- A trace is lock-correct when replaying it from no held locks succeeds. -/
def accessesLocked (t : List LockEv) : Bool := accessesLockedFrom [] t

/-- `handle_connect` events (server.cpp lines 196-231): lock `client_mutex`
(198), scan `connected_clients` (215), store (225), read metadata (227),
unlock at scope end.  Metadata is read under the client lock here. -/
def handle_connect_trace : List LockEv :=
  [.acq .client, .access .client, .access .client, .access .client, .rel .client]

/-- `handle_disconnect` events (server.cpp lines 239-262): lock `client_mutex`
(241), `find` (242), metadata (246), lock `topic_mutex` (250), walk
`topic_subscribers` (251-254), unlock topic (255), `erase` (259), unlock
client at scope end.  The only handler holding both locks; client first. -/
def handle_disconnect_trace : List LockEv :=
  [.acq .client, .access .client, .access .client, .acq .topic, .access .topic,
    .rel .topic, .access .client, .rel .client]

/-- `handle_subscribe` events (server.cpp lines 271-304): lock `topic_mutex`
(280), `topic_subscribers[topic]` (282), `find_if` (285), `push_back` (291),
then `get_client_metadata` (300) reads `connected_clients` while only the
topic lock is held, unlock at scope end. -/
def handle_subscribe_trace : List LockEv :=
  [.acq .topic, .access .topic, .access .topic, .access .topic, .access .client, .rel .topic]

/-- `handle_unsubscribe` events (server.cpp lines 313-351): lock `topic_mutex`
(322), `find` (324), `remove_if`/`erase` (334-344), `get_client_metadata`
(347) reading `connected_clients` without the client lock, unlock. -/
def handle_unsubscribe_trace : List LockEv :=
  [.acq .topic, .access .topic, .access .topic, .access .client, .rel .topic]

/-- `handle_publish` events (server.cpp lines 360-407): lock `topic_mutex`
(383), `find` (384), `get_client_metadata` (392) reading `connected_clients`
without the client lock, fan-out mutating `topic_subscribers` (395-406),
unlock. -/
def handle_publish_trace : List LockEv :=
  [.acq .topic, .access .topic, .access .client, .access .topic, .rel .topic]

/-- `client_handler` EOF branch events (server.cpp line 142):
`get_client_metadata` reads `connected_clients` with no lock at all. -/
def client_handler_eof_trace : List LockEv :=
  [.access .client]

/-! ### Registry lemmas -/

theorem lookupConn_mapSetConn (reg : ConnReg) (c : Conn) (info : ClientInfo) :
    lookupConn (mapSetConn reg c info) c = some info := by
  rw [mapSetConn]
  by_cases hany : reg.any (fun p => p.1 == c) = true
  · rw [if_pos hany]
    induction reg with
    | nil => exact Bool.noConfusion hany
    | cons q rest ih =>
      by_cases hq : q.1 = c
      · simp [lookupConn, List.find?, hq]
      · have hq2 : (q.1 == c) = false := beq_false_of_ne hq
        have hrest : rest.any (fun p => p.1 == c) = true := by
          rw [List.any_cons, hq2] at hany
          simpa using hany
        have hmap : (q :: rest).map (fun p => if p.1 == c then (c, info) else p)
            = q :: rest.map (fun p => if p.1 == c then (c, info) else p) := by
          have hifq : (if (q.1 == c) = true then (c, info) else q) = q :=
            if_neg (by simp [hq2])
          rw [List.map_cons, hifq]
        rw [hmap, lookupConn, List.find?_cons_of_neg _ (by simp [hq2]), ← lookupConn]
        exact ih hrest
  · rw [if_neg hany]
    have hnone : ∀ p ∈ reg, (p.1 == c) = false := by
      intro p hp
      by_contra hcon
      exact hany (List.any_eq_true.mpr ⟨p, hp, by simpa using hcon⟩)
    induction reg with
    | nil => simp [lookupConn, List.find?]
    | cons q rest ih =>
      have hq : (q.1 == c) = false := hnone q (List.mem_cons_self q rest)
      rw [List.cons_append, lookupConn, List.find?, hq]
      exact ih (by intro hb; exact hany (by rw [List.any_cons, hb]; simp))
        (fun p hp => hnone p (List.mem_cons_of_mem q hp))

theorem lookupConn_eq_some_mem (reg : ConnReg) (c : Conn) (info : ClientInfo)
    (h : lookupConn reg c = some info) :
    ∃ q ∈ reg, q.1 = c ∧ q.2 = info := by
  rw [lookupConn] at h
  rcases Option.map_eq_some'.mp h with ⟨q, hq, hq2⟩
  exact ⟨q, List.mem_of_find?_eq_some hq, by simpa using List.find?_some hq, hq2⟩

theorem lookupConn_none_of_no_key (reg : ConnReg) (c : Conn)
    (h : ∀ p ∈ reg, p.1 ≠ c) : lookupConn reg c = none := by
  induction reg with
  | nil => rfl
  | cons q rest ih =>
    rw [lookupConn, List.find?, beq_false_of_ne (h q (List.mem_cons_self q rest))]
    exact ih (fun p hp => h p (List.mem_cons_of_mem q hp))

theorem lookupConn_eraseConn_self (reg : ConnReg) (c : Conn)
    (hkeys : (reg.map Prod.fst).Nodup) :
    lookupConn (eraseConn reg c) c = none := by
  induction reg with
  | nil => rfl
  | cons q rest ih =>
    rw [List.map_cons, List.nodup_cons] at hkeys
    by_cases hq : q.1 = c
    · rw [eraseConn, List.eraseP_cons_of_pos (by simpa using hq)]
      refine lookupConn_none_of_no_key rest c (fun p hp hpc => ?_)
      exact hkeys.1 (by rw [← hq, ← hpc] at *; exact List.mem_map_of_mem Prod.fst hp)
    · rw [eraseConn, List.eraseP_cons_of_neg (by simpa using hq)]
      rw [lookupConn, List.find?, beq_false_of_ne hq]
      exact ih hkeys.2

theorem findTopic_eq_some_mem (st : TopicReg) (t : String) (subs : List Conn)
    (h : findTopic st t = some subs) :
    ∃ q ∈ st, q.1 = t ∧ q.2 = subs := by
  rw [findTopic] at h
  rcases Option.map_eq_some'.mp h with ⟨q, hq, hq2⟩
  exact ⟨q, List.mem_of_find?_eq_some hq, by simpa using List.find?_some hq, hq2⟩

/-- Per-topic no-duplicate-subscriber invariant (spec section 3): every
subscriber vector holds each connection at most once. -/
def TopicNodup (st : TopicReg) : Prop := ∀ p ∈ st, p.2.Nodup

theorem setTopic_nodup (st : TopicReg) (t : String) (subs : List Conn)
    (h : TopicNodup st) (hs : subs.Nodup) : TopicNodup (setTopic st t subs) := by
  rw [setTopic]
  by_cases hany : st.any (fun p => p.1 == t) = true
  · rw [if_pos hany]
    intro p hp
    rcases List.mem_map.mp hp with ⟨q, hq, hpq⟩
    by_cases hqt : q.1 = t
    · rw [← hpq, if_pos (by simpa using hqt)]
      exact hs
    · rw [← hpq, if_neg (by simpa using hqt)]
      exact h q hq
  · rw [if_neg hany]
    intro p hp
    rcases List.mem_append.mp hp with hp1 | hp2
    · exact h p hp1
    · rw [List.mem_singleton.mp hp2]
      exact hs

theorem findTopic_getD_nodup (st : TopicReg) (t : String) (h : TopicNodup st) :
    ((findTopic st t).getD []).Nodup := by
  cases hf : findTopic st t with
  | none => exact List.nodup_nil
  | some subs =>
    rcases findTopic_eq_some_mem st t subs hf with ⟨q, hq, _, hq2⟩
    rw [Option.getD_some, ← hq2]
    exact h q hq

theorem fanoutGo_succ_none (failSend : Conn → Bool) (msg : String) (k i : Nat)
    (cur : List Conn) (h : cur.get? i = none) :
    fanoutGo failSend msg (k + 1) i cur =
      ((fanoutGo failSend msg k (i + 1) cur).1,
        (fanoutGo failSend msg k (i + 1) cur).2.1, true) := by
  simp only [fanoutGo]
  rw [h]

theorem fanoutGo_succ_fail (failSend : Conn → Bool) (msg : String) (k i : Nat)
    (cur : List Conn) (sub : Conn) (h : cur.get? i = some sub)
    (hf : failSend sub = true) :
    fanoutGo failSend msg (k + 1) i cur =
      fanoutGo failSend msg k (i + 1) (cur.filter (fun s => !(s == sub))) := by
  simp only [fanoutGo]
  split
  · rename_i heq
    rw [h] at heq
    exact Option.noConfusion heq
  · rename_i sub2 heq
    rw [h] at heq
    cases Option.some.inj heq
    rw [if_pos hf]

theorem fanoutGo_succ_ok (failSend : Conn → Bool) (msg : String) (k i : Nat)
    (cur : List Conn) (sub : Conn) (h : cur.get? i = some sub)
    (hf : failSend sub = false) :
    fanoutGo failSend msg (k + 1) i cur =
      ((fanoutGo failSend msg k (i + 1) cur).1,
        (sub, msg) :: (fanoutGo failSend msg k (i + 1) cur).2.1,
        (fanoutGo failSend msg k (i + 1) cur).2.2) := by
  simp only [fanoutGo]
  split
  · rename_i heq
    rw [h] at heq
    exact Option.noConfusion heq
  · rename_i sub2 heq
    rw [h] at heq
    cases Option.some.inj heq
    rw [if_neg (by simp [hf])]

theorem fanoutGo_sublist (failSend : Conn → Bool) (msg : String) :
    ∀ (k i : Nat) (cur : List Conn), (fanoutGo failSend msg k i cur).1.Sublist cur := by
  intro k
  induction k with
  | zero => intro i cur; exact List.Sublist.refl cur
  | succ k ih =>
    intro i cur
    cases hg : cur.get? i with
    | none =>
      rw [fanoutGo_succ_none failSend msg k i cur hg]
      exact ih (i + 1) cur
    | some sub =>
      by_cases hfail : failSend sub = true
      · rw [fanoutGo_succ_fail failSend msg k i cur sub hg hfail]
        exact (ih (i + 1) (cur.filter (fun s => !(s == sub)))).trans
          (List.filter_sublist cur)
      · rw [fanoutGo_succ_ok failSend msg k i cur sub hg (Bool.eq_false_iff.mpr hfail)]
        exact ih (i + 1) cur

theorem fanoutGo_sent_mem (failSend : Conn → Bool) (msg : String) :
    ∀ (k i : Nat) (cur : List Conn) (x : Conn) (m : String),
      (x, m) ∈ (fanoutGo failSend msg k i cur).2.1 → x ∈ cur := by
  intro k
  induction k with
  | zero => intro i cur x m h; exact absurd h (List.not_mem_nil (x, m))
  | succ k ih =>
    intro i cur x m h
    cases hg : cur.get? i with
    | none =>
      rw [fanoutGo_succ_none failSend msg k i cur hg] at h
      exact ih (i + 1) cur x m h
    | some sub =>
      by_cases hfail : failSend sub = true
      · rw [fanoutGo_succ_fail failSend msg k i cur sub hg hfail] at h
        exact List.mem_of_mem_filter (ih (i + 1) _ x m h)
      · rw [fanoutGo_succ_ok failSend msg k i cur sub hg (Bool.eq_false_iff.mpr hfail)] at h
        rcases List.mem_cons.mp h with h1 | h2
        · cases h1
          exact List.get?_mem hg
        · exact ih (i + 1) cur x m h2

/-! ### Claim theorems -/

/-- C1: the claim states that when a send to one of N subscribers fails, the
failed subscriber is removed and each of the remaining N-1 subscribers still
receives `[Message] Topic: <t> Data: <payload>`.  Evaluating the embedded
fan-out loop of `handle_publish` on subscribers `[1, 2, 3]` with the send to
`1` throwing: subscriber `1` is erased (final set `[2, 3]`, size N-1) but only
subscriber `3` receives the message - subscriber `2` is skipped because the
erase shifts the vector under the iterating loop - and the loop's last
iteration reads a destroyed slot (`ubRead = true`; in the C++ this is
undefined behavior through the invalidated cached `end()` iterator).  With no
failure, all three subscribers do receive the exact formatted line. -/
theorem c1_publish_fanout_failure_skips_subscriber :
    handle_publish [("news", [1, 2, 3])] 9 "news 73F" (fun s => s == 1) =
      ⟨[("news", [2, 3])], [(3, "[Message] Topic: news Data: 73F")], true⟩
    ∧ handle_publish [("news", [1, 2, 3])] 9 "news 73F" (fun _ => false) =
      ⟨[("news", [1, 2, 3])],
        [(1, "[Message] Topic: news Data: 73F"), (2, "[Message] Topic: news Data: 73F"),
          (3, "[Message] Topic: news Data: 73F")], false⟩ := by
  exact ⟨rfl, rfl⟩

/-- C3: the claim states that the read loop splits reads into complete
newline-terminated command lines, buffering partial trailing lines.  The
embedded chunk handling of `client_handler` (strip every newline, dispatch
the whole chunk once) does neither: two complete lines arriving in one read
are dispatched as the single mangled command
`("SUBSCRIBE", "alphaSUBSCRIBE beta")`, and a line split across two reads is
dispatched as the two wrong commands `("SUBSCRIBE", "al")` and `("pha", "")`
instead of being buffered into one. -/
theorem c3_framing_defect :
    client_handler_chunk "SUBSCRIBE alpha\nSUBSCRIBE beta\n"
      = ("SUBSCRIBE", "alphaSUBSCRIBE beta")
    ∧ client_handler_chunk "SUBSCRIBE al" = ("SUBSCRIBE", "al")
    ∧ client_handler_chunk "pha\n" = ("pha", "") := by
  exact ⟨rfl, rfl, rfl⟩

/-- C9: the claim states that every Connection Registry access happens under
the connection-registry lock.  Replaying the lock/access traces of the
handler bodies: `handle_subscribe`, `handle_unsubscribe` and `handle_publish`
all read `connected_clients` through `get_client_metadata` while holding only
`topic_mutex`, and the `client_handler` EOF branch reads it with no lock at
all, so the checker rejects those traces; `handle_connect` and
`handle_disconnect` do keep every access under the right lock (and
`handle_disconnect`, the only both-lock path, acquires client before topic,
as its trace records). -/
theorem c9_unlocked_connection_registry_reads :
    accessesLocked handle_subscribe_trace = false
    ∧ accessesLocked handle_unsubscribe_trace = false
    ∧ accessesLocked handle_publish_trace = false
    ∧ accessesLocked client_handler_eof_trace = false
    ∧ accessesLocked handle_connect_trace = true
    ∧ accessesLocked handle_disconnect_trace = true := by
  exact ⟨rfl, rfl, rfl, rfl, rfl, rfl⟩

/-- C2 counterexample: the claim states a read EOF takes the same teardown
path as DISCONNECT, so that a later PUBLISH no longer delivers to the
connection.  With connection `0` registered and subscribed to `news`, the
EOF branch leaves both registries unchanged and a later
`PUBLISH news 73F` still delivers to connection `0`. -/
theorem c2_eof_no_teardown_counterexample :
    client_handler_eof [(0, ⟨"alice", 7⟩)] [("news", [0])] 0
      = ([(0, ⟨"alice", 7⟩)], [("news", [0])])
    ∧ (handle_publish [("news", [0])] 1 "news 73F" (fun _ => false)).sent
      = [(0, "[Message] Topic: news Data: 73F")] := by
  exact ⟨rfl, rfl⟩

/-- C4 counterexample: the claim states that after each registration no two
simultaneously active sessions share a display_name.  Registering `bob`
(pid 100), then `bob-200` (pid 9), then `bob` again (pid 200) makes the third
session collide with the first, so it is renamed to `bob-200` - which
duplicates the second session's name: the display names after the third
registration are `["bob", "bob-200", "bob-200"]`, not pairwise distinct. -/
theorem c4_duplicate_display_name_counterexample :
    ((handle_connect (handle_connect (handle_connect [] 0 1999 "bob" 100).1
        1 1999 "bob-200" 9).1 2 1999 "bob" 200).1.map (fun p => p.2.name))
      = ["bob", "bob-200", "bob-200"]
    ∧ ¬ ((handle_connect (handle_connect (handle_connect [] 0 1999 "bob" 100).1
        1 1999 "bob-200" 9).1 2 1999 "bob" 200).1.map (fun p => p.2.name)).Nodup := by
  refine ⟨rfl, ?_⟩
  intro h
  rw [(rfl : ((handle_connect (handle_connect (handle_connect [] 0 1999 "bob" 100).1
        1 1999 "bob-200" 9).1 2 1999 "bob" 200).1.map (fun p => p.2.name))
      = ["bob", "bob-200", "bob-200"])] at h
  exact absurd h (by decide)

/-- C5: `sanitize_topic` trims leading/trailing spaces and tabs, rejects
(returns the empty string used as the reject marker) exactly when the trimmed
result is empty, longer than 64 characters, or contains a non-alphanumeric
character, and otherwise returns the trimmed string; and on the concrete
examples, `" "`, a 65-character name, `"topic!"` and `"My_Topic"` are
invalid while `" News "` yields `"News"`. -/
theorem c5_sanitize_topic_spec :
    (∀ raw : String, sanitize_topic raw = "" ↔
      (trimWs raw.toList = [] ∨ 64 < (trimWs raw.toList).length ∨
        ∃ c ∈ trimWs raw.toList, isAlnumAscii c = false))
    ∧ (∀ raw : String, sanitize_topic raw ≠ "" →
        sanitize_topic raw = String.mk (trimWs raw.toList))
    ∧ sanitize_topic " " = ""
    ∧ sanitize_topic (String.mk (List.replicate 65 'a')) = ""
    ∧ sanitize_topic "topic!" = ""
    ∧ sanitize_topic "My_Topic" = ""
    ∧ sanitize_topic " News " = "News" := by
  refine ⟨?_, ?_, ?_, ?_, ?_, ?_, ?_⟩
  · intro raw
    exact sanitizeField_eq_empty_iff 64 isAlnumAscii raw
  · intro raw h
    exact sanitizeField_eq_trim_of_ne_empty 64 isAlnumAscii raw h
  · rfl
  · rfl
  · rfl
  · rfl
  · rfl

/-- C5 witness: the accepted topic `"News7"` instantiates the
non-rejection hypothesis of `c5_sanitize_topic_spec`. -/
theorem c5_sanitize_topic_witness :
    sanitize_topic "News7" = String.mk (trimWs "News7".toList) :=
  c5_sanitize_topic_spec.2.1 "News7" (by decide)

/-- C6: PUBLISH payload validation: `sanitize_message` trims leading/trailing
spaces/tabs and rejects exactly when the trimmed payload is empty, longer than
1024 bytes, or contains a byte outside printable ASCII 0x20-0x7E; any other
payload is accepted unchanged after trimming; and `handle_publish`
(via `publish_core`, for a valid topic) answers a rejected payload with the
invalid-message reply, leaving the registry unchanged and delivering
nothing. -/
theorem c6_publish_payload_validation :
    (∀ raw : String, sanitize_message raw = "" ↔
      (trimWs raw.toList = [] ∨ 1024 < (trimWs raw.toList).length ∨
        ∃ c ∈ trimWs raw.toList, isPrintableAscii c = false))
    ∧ (∀ raw : String, sanitize_message raw ≠ "" →
        sanitize_message raw = String.mk (trimWs raw.toList))
    ∧ (∀ (st : TopicReg) (c : Conn) (rawTopic rawPayload : String)
        (failSend : Conn → Bool),
        sanitize_topic rawTopic ≠ "" → sanitize_message rawPayload = "" →
        publish_core st c rawTopic rawPayload failSend
          = ⟨st, [(c, invalidMessageReply)], false⟩) := by
  refine ⟨?_, ?_, ?_⟩
  · intro raw
    exact sanitizeField_eq_empty_iff 1024 isPrintableAscii raw
  · intro raw h
    exact sanitizeField_eq_trim_of_ne_empty 1024 isPrintableAscii raw h
  · intro st c rawTopic rawPayload failSend h1 h2
    rw [publish_core, if_neg h1, if_pos h2]

/-- C6 witness: with the valid topic `"news"` and the payload `"a\tb"`
(interior tab, a byte below 0x20), `c6_publish_payload_validation` yields the
invalid-message reply with no state change and no delivery. -/
theorem c6_publish_payload_witness :
    publish_core [("news", [5])] 9 "news" "a\tb" (fun _ => false)
      = ⟨[("news", [5])], [(9, invalidMessageReply)], false⟩ :=
  c6_publish_payload_validation.2.2 [("news", [5])] 9 "news" "a\tb" (fun _ => false)
    (by decide) (by decide)

theorem nodup_append_singleton (l : List Conn) (a : Conn)
    (h : l.Nodup) (ha : a ∉ l) : (l ++ [a]).Nodup := by
  rw [List.nodup_append]
  refine ⟨h, List.nodup_singleton a, ?_⟩
  intro x hx hxa
  rw [List.mem_singleton.mp hxa] at hx
  exact ha hx

theorem handle_subscribe_preserves_nodup (st : TopicReg) (c : Conn) (traw : String)
    (h : TopicNodup st) : TopicNodup (handle_subscribe st c traw).1 := by
  simp only [handle_subscribe]
  by_cases h1 : sanitize_topic traw = ""
  · rw [if_pos h1]; exact h
  · rw [if_neg h1]
    by_cases h2 : (((findTopic st (sanitize_topic traw)).getD []).any (fun s => s == c)) = true
    · rw [if_pos h2]; exact h
    · rw [if_neg h2]
      have hsubs : ((findTopic st (sanitize_topic traw)).getD []).Nodup :=
        findTopic_getD_nodup st (sanitize_topic traw) h
      have hc : c ∉ (findTopic st (sanitize_topic traw)).getD [] := by
        intro hmem
        exact h2 (List.any_eq_true.mpr ⟨c, hmem, by simp⟩)
      exact setTopic_nodup st (sanitize_topic traw) _ h
        (nodup_append_singleton _ c hsubs hc)

theorem handle_unsubscribe_preserves_nodup (st : TopicReg) (c : Conn) (traw : String)
    (h : TopicNodup st) : TopicNodup (handle_unsubscribe st c traw).1 := by
  simp only [handle_unsubscribe]
  by_cases h1 : sanitize_topic traw = ""
  · rw [if_pos h1]; exact h
  · rw [if_neg h1]
    split
    · exact h
    · rename_i subs heq
      by_cases h2 : subs.isEmpty = true
      · rw [if_pos h2]; exact h
      · rw [if_neg h2]
        by_cases h3 : subs.all (fun s => !(s == c)) = true
        · rw [if_pos h3]; exact h
        · rw [if_neg h3]
          have hsubs : subs.Nodup := by
            rcases findTopic_eq_some_mem st _ subs heq with ⟨q, hq, _, hq2⟩
            rw [← hq2]
            exact h q hq
          exact setTopic_nodup st (sanitize_topic traw) _ h (hsubs.filter _)

theorem publish_core_preserves_nodup (st : TopicReg) (c : Conn) (rt rp : String)
    (failSend : Conn → Bool) (h : TopicNodup st) :
    TopicNodup (publish_core st c rt rp failSend).reg := by
  simp only [publish_core]
  by_cases h1 : sanitize_topic rt = ""
  · rw [if_pos h1]; exact h
  · rw [if_neg h1]
    by_cases h2 : sanitize_message rp = ""
    · rw [if_pos h2]; exact h
    · rw [if_neg h2]
      split
      · exact h
      · rename_i subs heq
        by_cases h3 : subs.isEmpty = true
        · rw [if_pos h3]; exact h
        · rw [if_neg h3]
          have hsubs : subs.Nodup := by
            rcases findTopic_eq_some_mem st _ subs heq with ⟨q, hq, _, hq2⟩
            rw [← hq2]
            exact h q hq
          refine setTopic_nodup st (sanitize_topic rt) _ h ?_
          exact List.Nodup.sublist
            (fanoutGo_sublist failSend _ subs.length 0 subs) hsubs

theorem handle_publish_preserves_nodup (st : TopicReg) (c : Conn) (args : String)
    (failSend : Conn → Bool) (h : TopicNodup st) :
    TopicNodup (handle_publish st c args failSend).reg := by
  simp only [handle_publish]
  split
  · exact h
  · exact publish_core_preserves_nodup st c _ _ failSend h

theorem handle_disconnect_preserves_nodup (creg : ConnReg) (treg : TopicReg) (c : Conn)
    (h : TopicNodup treg) : TopicNodup (handle_disconnect creg treg c).2.1 := by
  simp only [handle_disconnect]
  split
  · exact h
  · intro p hp
    rcases List.mem_map.mp hp with ⟨q, hq, hpq⟩
    rw [← hpq]
    exact (h q hq).filter _

/-- C7: subscribing a connection that is already in the (valid) topic's
subscriber set replies `Already subscribed` and returns the registry
unchanged; and each of subscribe, unsubscribe, publish and disconnect
preserves the invariant that a connection appears at most once in any topic's
subscriber set (`TopicNodup`). -/
theorem c7_subscriber_set_invariants :
    (∀ (st : TopicReg) (c : Conn) (traw : String),
      sanitize_topic traw ≠ "" →
      (((findTopic st (sanitize_topic traw)).getD []).any (fun s => s == c)) = true →
      handle_subscribe st c traw
        = (st, [(c, "[SERVER] Already subscribed to " ++ sanitize_topic traw)]))
    ∧ (∀ (st : TopicReg) (c : Conn) (traw : String),
        TopicNodup st → TopicNodup (handle_subscribe st c traw).1)
    ∧ (∀ (st : TopicReg) (c : Conn) (traw : String),
        TopicNodup st → TopicNodup (handle_unsubscribe st c traw).1)
    ∧ (∀ (st : TopicReg) (c : Conn) (args : String) (failSend : Conn → Bool),
        TopicNodup st → TopicNodup (handle_publish st c args failSend).reg)
    ∧ (∀ (creg : ConnReg) (treg : TopicReg) (c : Conn),
        TopicNodup treg → TopicNodup (handle_disconnect creg treg c).2.1) := by
  refine ⟨?_, handle_subscribe_preserves_nodup, handle_unsubscribe_preserves_nodup,
    handle_publish_preserves_nodup, handle_disconnect_preserves_nodup⟩
  intro st c traw h1 h2
  simp only [handle_subscribe]
  rw [if_neg h1, if_pos h2]

/-- C7 witness: connection `5` is already subscribed to `news`, so a second
SUBSCRIBE replies `Already subscribed` and changes nothing. -/
theorem c7_subscriber_set_witness :
    handle_subscribe [("news", [5])] 5 "news"
      = ([("news", [5])], [(5, "[SERVER] Already subscribed to news")]) := by
  have h := c7_subscriber_set_invariants.1 [("news", [5])] 5 "news" (by decide) (by rfl)
  exact h

/-- C8: for a valid topic name, UNSUBSCRIBE replies `not subscribed` whenever
the connection is not in the topic's subscriber set - which covers both a
topic absent from the Topic Registry (`getD []`) and a present topic that
does not hold the connection - and in both cases the registry is returned
unchanged, so unsubscribing from a never-created topic creates no entry. -/
theorem c8_unsubscribe_not_subscribed (st : TopicReg) (c : Conn) (traw : String)
    (h1 : sanitize_topic traw ≠ "")
    (h2 : c ∉ (findTopic st (sanitize_topic traw)).getD []) :
    handle_unsubscribe st c traw
      = (st, [(c, "[SERVER_ERROR] You are not subscribed to " ++ sanitize_topic traw)]) := by
  simp only [handle_unsubscribe]
  rw [if_neg h1]
  split
  · rfl
  · rename_i subs heq
    rw [heq, Option.getD_some] at h2
    by_cases hempty : subs.isEmpty = true
    · rw [if_pos hempty]
    · rw [if_neg hempty]
      have h3 : subs.all (fun s => !(s == c)) = true := by
        rw [List.all_eq_true]
        intro s hs
        simp only [Bool.not_eq_true']
        exact beq_false_of_ne (fun hsc => h2 (hsc ▸ hs))
      rw [if_pos h3]

/-- C8 witness: connection `3` is not among `news`'s subscribers `[7]`, and
unsubscribing replies `not subscribed` without touching the registry. -/
theorem c8_unsubscribe_witness :
    handle_unsubscribe [("news", [7])] 3 "news"
      = ([("news", [7])], [(3, "[SERVER_ERROR] You are not subscribed to news")]) :=
  c8_unsubscribe_not_subscribed [("news", [7])] 3 "news" (by decide) (by decide)

/-- C10: a second well-formed CONNECT on a connection that already has a
registered session is not rejected: the collision scan also sees the
connection's own entry, so re-CONNECTing under the current display name
renames the new session to `name-pid`; the registry entry is overwritten in
place (same registry size) and the reply announces the suffixed name. -/
theorem c10_reconnect_overwrites_entry (creg : ConnReg) (c : Conn) (clientPort : Int)
    (clientPid : Int) (info : ClientInfo) (h : lookupConn creg c = some info) :
    lookupConn (handle_connect creg c clientPort info.name clientPid).1 c
      = some ⟨info.name ++ "-" ++ toString clientPid, clientPid⟩
    ∧ (handle_connect creg c clientPort info.name clientPid).1.length = creg.length
    ∧ (handle_connect creg c clientPort info.name clientPid).2
      = [(c, "[SERVER] Connected as " ++ (info.name ++ "-" ++ toString clientPid))] := by
  rcases lookupConn_eq_some_mem creg c info h with ⟨q, hq, hq1, hq2⟩
  have hany : creg.any (fun p => p.2.name == info.name) = true :=
    List.any_eq_true.mpr ⟨q, hq, by simp [hq2]⟩
  have hkey : creg.any (fun p => p.1 == c) = true :=
    List.any_eq_true.mpr ⟨q, hq, by simp [hq1]⟩
  refine ⟨?_, ?_, ?_⟩
  · simp only [handle_connect]
    rw [if_pos hany]
    exact lookupConn_mapSetConn creg c _
  · simp only [handle_connect]
    rw [mapSetConn, if_pos hkey]
    exact List.length_map creg _
  · simp only [handle_connect]
    rw [if_pos hany]

/-- C10 witness: connection `0` is registered as `bob` (pid 100); a second
CONNECT with name `bob` and pid 200 overwrites the entry with `bob-200`. -/
theorem c10_reconnect_witness :
    lookupConn (handle_connect [(0, ⟨"bob", 100⟩)] 0 1999 "bob" 200).1 0
      = some ⟨"bob" ++ "-" ++ toString (200 : Int), 200⟩
    ∧ (handle_connect [(0, ⟨"bob", 100⟩)] 0 1999 "bob" 200).1.length
      = ([(0, (⟨"bob", 100⟩ : ClientInfo))] : ConnReg).length
    ∧ (handle_connect [(0, ⟨"bob", 100⟩)] 0 1999 "bob" 200).2
      = [(0, "[SERVER] Connected as " ++ ("bob" ++ "-" ++ toString (200 : Int)))] :=
  c10_reconnect_overwrites_entry [(0, ⟨"bob", 100⟩)] 0 1999 200 ⟨"bob", 100⟩ (by rfl)

/-- C4 amended: registration renames the new session to `name-pid` exactly
when some existing session carries the same name (a single collision check
against the current entries), and the two CONNECTs of the example - `bob`
pid 100 then `bob` pid 200 on a fresh registry - yield sessions named `bob`
and `bob-200`; the generated name is not re-checked, so the no-duplicate
claim itself fails (see the counterexample). -/
theorem c4_amended_single_collision_check :
    (∀ (creg : ConnReg) (c : Conn) (clientPort : Int) (clientName : String)
        (clientPid : Int),
      lookupConn (handle_connect creg c clientPort clientName clientPid).1 c
        = some ⟨(if creg.any (fun p => p.2.name == clientName) = true
                 then clientName ++ "-" ++ toString clientPid else clientName),
                clientPid⟩)
    ∧ ((handle_connect (handle_connect [] 0 1999 "bob" 100).1 1 1999 "bob" 200).1.map
        (fun p => (p.1, p.2.name))) = [(0, "bob"), (1, "bob-200")] := by
  constructor
  · intro creg c clientPort clientName clientPid
    simp only [handle_connect]
    by_cases hany : creg.any (fun p => p.2.name == clientName) = true
    · rw [if_pos hany]
      exact lookupConn_mapSetConn creg c _
    · rw [if_neg hany]
      exact lookupConn_mapSetConn creg c _
  · rfl

theorem publish_core_sent_cases (st : TopicReg) (s : Conn) (rt rp : String)
    (failSend : Conn → Bool) (x : Conn) (m : String)
    (h : (x, m) ∈ (publish_core st s rt rp failSend).sent) :
    x = s ∨ ∃ p ∈ st, x ∈ p.2 := by
  simp only [publish_core] at h
  by_cases h1 : sanitize_topic rt = ""
  · rw [if_pos h1] at h
    rcases List.mem_singleton.mp h with heq
    exact Or.inl (congrArg Prod.fst heq)
  · rw [if_neg h1] at h
    by_cases h2 : sanitize_message rp = ""
    · rw [if_pos h2] at h
      rcases List.mem_singleton.mp h with heq
      exact Or.inl (congrArg Prod.fst heq)
    · rw [if_neg h2] at h
      split at h
      · rcases List.mem_singleton.mp h with heq
        exact Or.inl (congrArg Prod.fst heq)
      · rename_i subs heq
        by_cases h3 : subs.isEmpty = true
        · rw [if_pos h3] at h
          rcases List.mem_singleton.mp h with heq2
          exact Or.inl (congrArg Prod.fst heq2)
        · rw [if_neg h3] at h
          have hx : x ∈ subs :=
            fanoutGo_sent_mem failSend _ subs.length 0 subs x m h
          rcases findTopic_eq_some_mem st _ subs heq with ⟨q, hq, _, hq2⟩
          exact Or.inr ⟨q, hq, by rw [hq2]; exact hx⟩

theorem handle_publish_sent_cases (st : TopicReg) (s : Conn) (args : String)
    (failSend : Conn → Bool) (x : Conn) (m : String)
    (h : (x, m) ∈ (handle_publish st s args failSend).sent) :
    x = s ∨ ∃ p ∈ st, x ∈ p.2 := by
  simp only [handle_publish] at h
  split at h
  · rcases List.mem_singleton.mp h with heq
    exact Or.inl (congrArg Prod.fst heq)
  · exact publish_core_sent_cases st s _ _ failSend x m h

/-- C2 amended: an explicit DISCONNECT on a registered connection removes it
from the Connection Registry and from every topic's subscriber set, and a
later PUBLISH (from any other connection) never sends to it; a read EOF does
not take that teardown path: the `client_handler` EOF branch leaves both
registries exactly unchanged. -/
theorem c2_amended_disconnect_teardown_eof_noop (creg : ConnReg) (treg : TopicReg)
    (c : Conn) (info : ClientInfo) (hkeys : (creg.map Prod.fst).Nodup)
    (hreg : lookupConn creg c = some info) :
    lookupConn (handle_disconnect creg treg c).1 c = none
    ∧ (∀ p ∈ (handle_disconnect creg treg c).2.1, c ∉ p.2)
    ∧ (∀ (s : Conn) (args : String) (failSend : Conn → Bool) (m : String), s ≠ c →
        (c, m) ∉ (handle_publish (handle_disconnect creg treg c).2.1 s args failSend).sent)
    ∧ (∀ (creg2 : ConnReg) (treg2 : TopicReg) (c2 : Conn),
        client_handler_eof creg2 treg2 c2 = (creg2, treg2)) := by
  have htreg : ∀ p ∈ (handle_disconnect creg treg c).2.1, c ∉ p.2 := by
    simp only [handle_disconnect, hreg]
    intro p hp
    rcases List.mem_map.mp hp with ⟨q, hq, hpq⟩
    rw [← hpq]
    intro hc
    rcases List.mem_filter.mp hc with ⟨-, hbool⟩
    simp at hbool
  refine ⟨?_, htreg, ?_, fun creg2 treg2 c2 => rfl⟩
  · simp only [handle_disconnect, hreg]
    exact lookupConn_eraseConn_self creg c hkeys
  · intro s args failSend m hs hmem
    rcases handle_publish_sent_cases _ s args failSend c m hmem with hcs | ⟨p, hp, hcp⟩
    · exact hs hcs.symm
    · exact htreg p hp hcp

/-- C2 amended witness: disconnecting the registered connection `0` empties
its registry entry and its `news` subscription, and a later
`PUBLISH news 73F` from connection `1` no longer sends to `0`. -/
theorem c2_amended_witness :
    lookupConn (handle_disconnect [(0, ⟨"alice", 7⟩)] [("news", [0])] 0).1 0 = none
    ∧ ((0 : Conn), "[Message] Topic: news Data: 73F") ∉
        (handle_publish (handle_disconnect [(0, ⟨"alice", 7⟩)] [("news", [0])] 0).2.1
          1 "news 73F" (fun _ => false)).sent := by
  have h := c2_amended_disconnect_teardown_eof_noop [(0, ⟨"alice", 7⟩)] [("news", [0])] 0
    ⟨"alice", 7⟩ (by decide) (by rfl)
  exact ⟨h.1, h.2.2.1 1 "news 73F" (fun _ => false) "[Message] Topic: news Data: 73F"
    (by decide)⟩
